import Mathlib

/-!
Verification of the schema-reflection core of `sqlite_orm` (`src/dev/table.h`).

The C++ core is heavily templated; the shallow embedding below replaces the
compile-time type dispatch with value-level data:

* A column's accessor (field member pointer / getter / setter) is a `Nat`
  identity stored in an `Option` slot per variant, mirroring `column_t`'s
  three pointer members (a column bound via a member pointer has null
  getter/setter pointers and vice versa).
* The template parameter `F` (field type) of the `find_column_name`
  overloads and of `for_each_column_with_field_type<F>` becomes a `TypeTag`
  value carried on the column and on the accessor handle.
* The mutating visitor lambdas of the C++ code become `List.foldl` over the
  column list in declaration order.

`table.h` is the one source file of the excerpt; the headers it includes
(`table_impl.h`, `column.h`, `table_info.h`, `type_printer.h`,
`constraints.h`, `tuple_helper.h`) are not part of the excerpt, so the
entities they declare are modelled from the specification, each marked
`Modelled from the spec:` in its doc comment.
-/

/-- Modelled from the spec: the semantic value-type tag of a column
(`type_printer.h` is not in the excerpt).  The spec lists integer, real,
text and blob as the basic tags (§3, §4.5). -/
inductive TypeTag
  | integer_tag
  | real_tag
  | text_tag
  | blob_tag
deriving DecidableEq, Repr

/-- Modelled from the spec: `type_printer<T>().print()` — the canonical SQL
type-name string of a value-type tag (§4.5). -/
def type_printer_print : TypeTag → String
  | TypeTag.integer_tag => "INTEGER"
  | TypeTag.real_tag => "REAL"
  | TypeTag.text_tag => "TEXT"
  | TypeTag.blob_tag => "BLOB"

/-- Modelled from the spec: whether `type_printer<T>` derives from
`text_printer`, i.e. whether default-value literals of this type are
rendered wrapped in single quotes (§4.5: text-like types quote, numeric,
boolean and blob types do not). -/
def is_text_printer : TypeTag → Bool
  | TypeTag.text_tag => true
  | _ => false

/-- Modelled from the spec: the column-level constraint markers stored on a
column (`constraints.h` is not in the excerpt): primary-key, not-null,
autoincrement, default-value and unique markers (§3). -/
inductive Constr
  | primary_key
  | not_null_c
  | autoincrement_c
  | default_t (value : String)
  | unique_c
deriving DecidableEq, Repr

/-- The accessor variant of a lookup handle: which of the three
`find_column_name` overloads of `table.h` it selects (member pointer,
const getter, setter). -/
inductive AccKind
  | member
  | getter
  | setter
deriving DecidableEq, Repr

/-- A lookup handle: the declared field type `F` of the overload together
with the identity of the member/getter/setter pointer. -/
structure AccessorRef where
  kind : AccKind
  field_type : TypeTag
  id : Nat
deriving DecidableEq, Repr

/-- Modelled from the spec: one `column_t` (`column.h` is not in the
excerpt).  `member_pointer`, `getter` and `setter` are the three pointer
slots of the C++ column; a slot that is null in C++ is `none` here.
`notnull_flag` models the boolean result of `column_t::not_null()`, which
the spec specifies only as a boolean query on the column (§4.1). -/
structure Column where
  name : String
  field_type : TypeTag
  member_pointer : Option Nat
  getter : Option Nat
  setter : Option Nat
  constraints : List Constr
  notnull_flag : Bool
deriving DecidableEq, Repr

/-- Modelled from the spec: `column_t::not_null()` (§4.1 `is_not_null()`). -/
def Column.not_null (c : Column) : Bool :=
  c.notnull_flag

/-- Modelled from the spec: `column_t::default_value()` — the optional
literal of a declared default-value constraint (§3). -/
def Column.default_value (c : Column) : Option String :=
  c.constraints.findSome? fun con =>
    match con with
    | Constr.default_t v => some v
    | _ => none

/-- Modelled from the spec: `column_t::has<constraints::primary_key_t<>>()`
— whether the column carries the column-level primary-key marker. -/
def Column.has_primary_key (c : Column) : Bool :=
  c.constraints.any fun con => decide (con = Constr.primary_key)

/-- Whether a lookup handle matches a column: the column must qualify for
`for_each_column_with_field_type<F>` (same field type) and the pointer slot
selected by the overload must hold the same identity.  A cross-variant
comparison (e.g. a getter handle against a member-pointer column) is false
because the corresponding slot is null. -/
def accessor_matches (a : AccessorRef) (c : Column) : Bool :=
  decide (c.field_type = a.field_type) &&
  match a.kind with
  | AccKind.member => decide (c.member_pointer = some a.id)
  | AccKind.getter => decide (c.getter = some a.id)
  | AccKind.setter => decide (c.setter = some a.id)

/-- Modelled from the spec: a table-level composite primary-key constraint
`constraints::primary_key_t<Args...>` with its ordered tuple of accessor
references (`pk.columns`). -/
structure CompositePK where
  columns : List AccessorRef
deriving DecidableEq, Repr

/-- `table_t<T, Cs...>` of `table.h`.  The parameter pack `Cs...` mixes
column definitions and table-level constraints; following the spec's data
model (§3) the embedding splits it into the ordered column sequence and the
ordered sequence of table-level composite primary-key constraints. -/
structure table_t where
  name : String
  columns : List Column
  primary_keys : List CompositePK
  without_rowid_flag : Bool
deriving DecidableEq, Repr

/-- `table_t::without_rowid()`: copies the table and sets the flag on the
copy (`auto res = *this; res._without_rowid = true; return res;`). -/
def table_t.without_rowid (t : table_t) : table_t :=
  { t with without_rowid_flag := true }

/-- `table_t::column_names()`: names in declaration order
(`for_each_column` pushes each `c.name`). -/
def table_t.column_names (t : table_t) : List String :=
  t.columns.map Column.name

/-- `table_t::columns_count()` — the number of columns, excluding
table-level constraints (`table_impl::columns_count()` is modelled from
the spec §4.4; the C++ return type is `int`, always non-negative here). -/
def table_t.columns_count (t : table_t) : Nat :=
  t.columns.length

/-- `table_t::find_column_name` (all three overloads).  The C++ code
initializes `res` to the empty string, then for each column whose field
type equals `F` (declaration order) assigns `res = c.name` whenever the
selected pointer slot compares equal — with no early exit, so a later
match overwrites an earlier one. -/
def table_t.find_column_name (t : table_t) (a : AccessorRef) : String :=
  t.columns.foldl (fun res c => if accessor_matches a c then c.name else res) ""

/-- `table_t::composite_key_columns_names(pk)`: resolves each accessor
reference of the constraint, in the constraint's listed order, through
`find_column_name` (`tuple_helper::iterator` applies the lambda to the
tuple elements in order; `tuple_helper.h` is not in the excerpt and the
order is modelled from the spec §4.4 step 2: "in the order listed in the
constraint"). -/
def table_t.composite_key_columns_names_pk (t : table_t) (pk : CompositePK) :
    List String :=
  pk.columns.map fun v => t.find_column_name v

/-- `table_t::composite_key_columns_names()` (no-argument overload):
`res` starts empty and `for_each_primary_key` re-assigns
`res = composite_key_columns_names(c)` for each table-level primary-key
constraint visited (`table_impl::for_each_primary_key` is modelled from
the spec §4.4 step 2 as the in-order scan of the table-level constraint
sequence). -/
def table_t.composite_key_columns_names (t : table_t) : List String :=
  t.primary_keys.foldl (fun _ pk => t.composite_key_columns_names_pk pk) []

/-- `table_t::primary_key_column_names()`: first collect the names of
columns carrying the column-level `primary_key_t<>` marker in declaration
order; only if that is empty fall back to the composite-key names. -/
def table_t.primary_key_column_names (t : table_t) : List String :=
  let res := (t.columns.filter Column.has_primary_key).map Column.name
  if res.length = 0 then t.composite_key_columns_names else res

/-- Modelled from the spec: one rendered introspection row (`table_info.h`
is not in the excerpt); the field shape is fixed by §6:
`(cid, name, type, notnull, dflt_value, pk)`. -/
structure table_info where
  cid : Int
  name : String
  type : String
  notnull : Bool
  dflt_value : String
  pk : Int
deriving DecidableEq, Repr

/-- The per-column rendering step of `table_t::get_table_info`: `cid` is
the literal `-1`, the default literal is single-quoted exactly when the
type printer is a `text_printer`, and `pk` is the `bool → int` conversion
of `has<primary_key_t<>>()`. -/
def render_column (col : Column) : table_info :=
  let dft : String :=
    match col.default_value with
    | some d => if is_text_printer col.field_type then "'" ++ d ++ "'" else d
    | none => ""
  { cid := -1
    name := col.name
    type := type_printer_print col.field_type
    notnull := col.not_null
    dflt_value := dft
    pk := if col.has_primary_key then 1 else 0 }

/-- The overlay step of `get_table_info`: `std::find_if` locates the first
row with the given name and sets its `pk`; later rows are untouched.  If
no row has the name, the list is unchanged. -/
def set_pk_first (rows : List table_info) (nm : String) (v : Int) :
    List table_info :=
  match rows with
  | [] => []
  | r :: rest =>
    if r.name = nm then { r with pk := v } :: rest
    else r :: set_pk_first rest nm v

/-- `table_t::get_table_info()`: render every column in declaration order,
recompute the composite-key column names (the same
`for_each_primary_key` overwrite fold as `composite_key_columns_names()`),
then for `i = 0, 1, ...` set `pk` of the first row named
`compositeKeyColumnNames[i]` to `i + 1`. -/
def table_t.get_table_info (t : table_t) : List table_info :=
  let res := t.columns.map render_column
  let compositeKeyColumnNames := t.composite_key_columns_names
  compositeKeyColumnNames.enum.foldl
    (fun rows p => set_pk_first rows p.2 (Int.ofNat (p.1 + 1))) res

/-- `make_table`: constructs the table from its name, columns and
table-level constraints.  It performs no validation of any kind — it only
forwards its arguments to the `table_t` constructor. -/
def make_table (name : String) (cols : List Column)
    (pks : List CompositePK) : table_t :=
  { name := name, columns := cols, primary_keys := pks,
    without_rowid_flag := false }

/-! ## Concrete example schemas

Small tables used to instantiate the theorems below and to exhibit the
behaviour of the code on explicit inputs. -/

/-- A member-pointer-bound column with the given name, type, field-slot
identity and constraint list. -/
def member_col (nm : String) (ft : TypeTag) (idx : Nat)
    (cs : List Constr) : Column :=
  { name := nm, field_type := ft, member_pointer := some idx,
    getter := none, setter := none, constraints := cs,
    notnull_flag := false }

/-- One-column table for the lookup-miss behaviour. -/
def exC1_table : table_t :=
  make_table "users" [member_col "id" TypeTag.integer_tag 0 []] []

/-- A handle bound to no column of `exC1_table` (field slot 7 is not
mapped). -/
def exC1_unbound : AccessorRef :=
  { kind := AccKind.member, field_type := TypeTag.integer_tag, id := 7 }

def exC2_colX : Column := member_col "x" TypeTag.integer_tag 0 []

def exC2_colY : Column := member_col "y" TypeTag.text_tag 1 []

/-- Composite key referencing `y` then `x`. -/
def exC2_pk : CompositePK :=
  { columns := [{ kind := AccKind.member, field_type := TypeTag.text_tag,
                  id := 1 },
                { kind := AccKind.member, field_type := TypeTag.integer_tag,
                  id := 0 }] }

def exC2_table : table_t := make_table "t2" [exC2_colX, exC2_colY] [exC2_pk]

/-- The owning column of each accessor reference of `exC2_pk`. -/
def exC2_owner : AccessorRef → Column := fun r =>
  if r.id = 0 then exC2_colX else exC2_colY

def exC3_colA : Column := member_col "a" TypeTag.integer_tag 0 []

def exC3_colB : Column := member_col "b" TypeTag.text_tag 1 []

def exC3_rB : AccessorRef :=
  { kind := AccKind.member, field_type := TypeTag.text_tag, id := 1 }

def exC3_rA : AccessorRef :=
  { kind := AccKind.member, field_type := TypeTag.integer_tag, id := 0 }

/-- Table whose declaration order is `a` before `b`, while the composite
key lists `b` before `a`. -/
def exC3_table : table_t :=
  make_table "t3" [exC3_colA, exC3_colB] [{ columns := [exC3_rB, exC3_rA] }]

/-- Two-column table for the metadata `cid` behaviour. -/
def exC4_table : table_t :=
  make_table "t4"
    [member_col "a" TypeTag.integer_tag 0 [],
     member_col "b" TypeTag.text_tag 1 []] []

def exC5_colA : Column := member_col "a" TypeTag.integer_tag 0 []

/-- Distinct column bound to the same field slot as `exC5_colA`. -/
def exC5_colB : Column := member_col "b" TypeTag.integer_tag 0 []

def exC5_table : table_t := make_table "t5" [exC5_colA, exC5_colB] []

def exC6_colA : Column := member_col "a" TypeTag.integer_tag 0 []

def exC6_colB : Column := member_col "b" TypeTag.integer_tag 0 []

def exC6_table : table_t := make_table "t6" [exC6_colA, exC6_colB] []

def exC6_acc : AccessorRef :=
  { kind := AccKind.member, field_type := TypeTag.integer_tag, id := 0 }

/-- Text column with declared default value `"abc"`. -/
def exC7_text_table : table_t :=
  make_table "t7a"
    [member_col "s" TypeTag.text_tag 0 [Constr.default_t "abc"]] []

/-- Integer column with declared default value `0`. -/
def exC7_int_table : table_t :=
  make_table "t7b"
    [member_col "n" TypeTag.integer_tag 0 [Constr.default_t "0"]] []

def exC8_table : table_t :=
  make_table "t8" [member_col "id" TypeTag.integer_tag 0 []] []

def exC9_col : Column := member_col "id" TypeTag.integer_tag 0 []

/-- A composite-key reference matching no declared column of `exC9_table`. -/
def exC9_bad : AccessorRef :=
  { kind := AccKind.member, field_type := TypeTag.integer_tag, id := 9 }

def exC9_table : table_t :=
  make_table "t9" [exC9_col] [{ columns := [exC9_bad] }]

def exC10_table : table_t :=
  make_table "t10"
    [member_col "id" TypeTag.integer_tag 0 [],
     member_col "nick" TypeTag.text_tag 1 []]
    [{ columns := [{ kind := AccKind.member,
                     field_type := TypeTag.integer_tag, id := 0 }] },
     { columns := [{ kind := AccKind.member,
                     field_type := TypeTag.text_tag, id := 1 }] }]

/-- The spec's default-value rendering rule, stated from the spec's words
(§4.5: the literal is wrapped in single quotes exactly when the column's
type is text-like; a column without a default renders the empty default
field) for comparison with the renderer of `table.h`. -/
def spec_rendered_default (c : Column) : String :=
  match c.default_value with
  | some d => if is_text_printer c.field_type then "'" ++ d ++ "'" else d
  | none => ""

/-! ## Helper lemmas -/

/-- An overwrite-style fold (the C++ `res = c.name` visitor pattern) yields
the last qualifying element, i.e. the first qualifying element of the
reversed list, or the initial value when none qualifies. -/
theorem foldl_overwrite {α : Type} (p : α → Bool) (g : α → String) :
    ∀ (l : List α) (init : String),
      l.foldl (fun res c => if p c then g c else res) init =
        ((l.reverse.find? p).map g).getD init
  | [], _ => rfl
  | x :: xs, init => by
    rw [List.foldl_cons, foldl_overwrite p g xs, List.reverse_cons,
      List.find?_append]
    cases h : xs.reverse.find? p with
    | some c => simp [h]
    | none =>
      cases hx : p x with
      | true => simp [h, hx, List.find?]
      | false => simp [h, hx, List.find?]

/-- `find_column_name` in closed form: the name of the last matching
column in declaration order, or `""` when no column matches. -/
theorem find_column_name_closed_form (t : table_t) (a : AccessorRef) :
    t.find_column_name a =
      ((t.columns.reverse.find? (accessor_matches a)).map Column.name).getD "" :=
  foldl_overwrite (accessor_matches a) Column.name t.columns ""

/-- `find?` on a list with a unique satisfying element returns it. -/
theorem find?_of_unique {α : Type} {p : α → Bool} {c : α} :
    ∀ {l : List α}, c ∈ l → p c = true → (∀ d ∈ l, p d = true → d = c) →
      l.find? p = some c
  | [], hc, _, _ => absurd hc (List.not_mem_nil c)
  | x :: xs, hc, hpc, huniq => by
    cases hx : p x with
    | true =>
      have hxc : x = c := huniq x (List.mem_cons_self x xs) hx
      subst hxc
      simp [List.find?, hx]
    | false =>
      have hcxs : c ∈ xs := by
        rcases List.mem_cons.mp hc with h | h
        · exact absurd (h ▸ hpc) (by simp [hx])
        · exact h
      have := find?_of_unique hcxs hpc fun d hd hpd =>
        huniq d (List.mem_cons_of_mem x hd) hpd
      simp [List.find?, hx, this]

/-- When exactly one column matches the handle, `find_column_name` returns
that column's name. -/
theorem find_column_name_of_unique {t : table_t} {a : AccessorRef}
    {c : Column} (hc : c ∈ t.columns) (hm : accessor_matches a c = true)
    (huniq : ∀ d ∈ t.columns, accessor_matches a d = true → d = c) :
    t.find_column_name a = c.name := by
  rw [find_column_name_closed_form]
  have : t.columns.reverse.find? (accessor_matches a) = some c :=
    find?_of_unique (List.mem_reverse.mpr hc) hm
      fun d hd => huniq d (List.mem_reverse.mp hd)
  simp [this]

/-- When no column matches the handle, `find_column_name` returns `""`. -/
theorem find_column_name_of_no_match {t : table_t} {a : AccessorRef}
    (h : ∀ c ∈ t.columns, accessor_matches a c = false) :
    t.find_column_name a = "" := by
  rw [find_column_name_closed_form]
  have : t.columns.reverse.find? (accessor_matches a) = none :=
    List.find?_eq_none.mpr fun c hc => by
      simp [h c (List.mem_reverse.mp hc)]
  simp [this]

/-- A row of `set_pk_first` output whose name differs from the updated
name was already in the input. -/
theorem mem_of_mem_set_pk_first {nm : String} {v : Int} {r : table_info} :
    ∀ {rows : List table_info}, r ∈ set_pk_first rows nm v → r.name ≠ nm →
      r ∈ rows
  | [], hr, _ => absurd hr (List.not_mem_nil r)
  | h :: tl, hr, hne => by
    by_cases hh : h.name = nm
    · rw [set_pk_first, if_pos hh] at hr
      rcases List.mem_cons.mp hr with h1 | h1
      · exact absurd (h1 ▸ rfl : r.name = h.name) (hh ▸ hne)
      · exact List.mem_cons_of_mem h h1
    · rw [set_pk_first, if_neg hh] at hr
      rcases List.mem_cons.mp hr with h1 | h1
      · exact h1 ▸ List.mem_cons_self h tl
      · exact List.mem_cons_of_mem h (mem_of_mem_set_pk_first h1 hne)

/-- Under name uniqueness, the row of `set_pk_first` output carrying the
updated name has the new `pk` value. -/
theorem pk_of_mem_set_pk_first {nm : String} {v : Int} {r : table_info} :
    ∀ {rows : List table_info}, (rows.map table_info.name).Nodup →
      r ∈ set_pk_first rows nm v → r.name = nm → r.pk = v
  | [], _, hr, _ => absurd hr (List.not_mem_nil r)
  | h :: tl, hnd, hr, heq => by
    rw [List.map_cons, List.nodup_cons] at hnd
    by_cases hh : h.name = nm
    · rw [set_pk_first, if_pos hh] at hr
      rcases List.mem_cons.mp hr with h1 | h1
      · rw [h1]
      · exact absurd (List.mem_map.mpr ⟨r, h1, heq.trans hh.symm⟩) hnd.1
    · rw [set_pk_first, if_neg hh] at hr
      rcases List.mem_cons.mp hr with h1 | h1
      · exact absurd (h1 ▸ heq : h.name = nm) hh
      · exact pk_of_mem_set_pk_first hnd.2 h1 heq

/-- `set_pk_first` changes only the `pk` field: any projection ignoring
`pk` is preserved rowwise. -/
theorem map_set_pk_first {β : Type} (f : table_info → β)
    (hf : ∀ r v, f { r with pk := v } = f r) (nm : String) (v : Int) :
    ∀ rows : List table_info,
      (set_pk_first rows nm v).map f = rows.map f
  | [] => rfl
  | h :: tl => by
    by_cases hh : h.name = nm
    · rw [set_pk_first, if_pos hh, List.map_cons, List.map_cons, hf]
    · rw [set_pk_first, if_neg hh, List.map_cons, List.map_cons,
        map_set_pk_first f hf nm v tl]

/-- Iterated `set_pk_first` (the pk overlay of `get_table_info`):
projections ignoring `pk` pass through unchanged. -/
theorem map_foldl_set_pk {β : Type} (f : table_info → β)
    (hf : ∀ r v, f { r with pk := v } = f r) :
    ∀ (ps : List (Nat × String)) (rows : List table_info),
      (ps.foldl (fun rs p => set_pk_first rs p.2 (Int.ofNat (p.1 + 1)))
          rows).map f = rows.map f
  | [], _ => rfl
  | p :: ps, rows => by
    rw [List.foldl_cons, map_foldl_set_pk f hf ps, map_set_pk_first f hf]

/-- A row of the overlay output whose name is none of the overlay names
was already in the base row list, unchanged. -/
theorem mem_base_of_mem_foldl_set_pk {r : table_info} :
    ∀ {ps : List (Nat × String)} {rows : List table_info},
      r ∈ ps.foldl (fun rs p => set_pk_first rs p.2 (Int.ofNat (p.1 + 1)))
            rows →
      (∀ p ∈ ps, r.name ≠ p.2) → r ∈ rows
  | [], _, hr, _ => hr
  | p :: ps, rows, hr, hn => by
    rw [List.foldl_cons] at hr
    have h1 := mem_base_of_mem_foldl_set_pk hr
      fun q hq => hn q (List.mem_cons_of_mem p hq)
    exact mem_of_mem_set_pk_first h1 (hn p (List.mem_cons_self p ps))

/-- A fold whose step discards the accumulator (the C++
`res = composite_key_columns_names(c)` visitor) keeps only the last
element's value. -/
theorem foldl_replace {α β : Type} (g : α → β) :
    ∀ (l : List α) (init : β),
      l.foldl (fun _ c => g c) init = ((l.getLast?).map g).getD init
  | [], _ => rfl
  | [_], _ => rfl
  | x :: y :: xs, init => by
    rw [List.foldl_cons, foldl_replace g (y :: xs), List.getLast?_cons_cons]
    cases h : (y :: xs).getLast? with
    | none => exact absurd (List.getLast?_eq_none_iff.mp h) (by simp)
    | some a => simp [h]

/-- `composite_key_columns_names()` in closed form: the resolution of the
last table-level primary-key constraint, or `[]` when there is none. -/
theorem composite_key_columns_names_closed_form (t : table_t) :
    t.composite_key_columns_names =
      ((t.primary_keys.getLast?).map
        (fun pk => t.composite_key_columns_names_pk pk)).getD [] :=
  foldl_replace (fun pk => t.composite_key_columns_names_pk pk)
    t.primary_keys []

/-- With no column-level primary-key marker anywhere,
`primary_key_column_names` falls through to the composite-key names. -/
theorem primary_key_column_names_of_no_column_pk {t : table_t}
    (h : ∀ c ∈ t.columns, c.has_primary_key = false) :
    t.primary_key_column_names = t.composite_key_columns_names := by
  unfold table_t.primary_key_column_names
  have hfil : t.columns.filter Column.has_primary_key = [] :=
    List.filter_eq_nil_iff.mpr fun c hc => by simp [h c hc]
  simp [hfil]

/-- With at least one column-level primary-key marker,
`primary_key_column_names` returns the marked columns' names in
declaration order and ignores table-level constraints. -/
theorem primary_key_column_names_of_column_pk {t : table_t} {c : Column}
    (hc : c ∈ t.columns) (hpk : c.has_primary_key = true) :
    t.primary_key_column_names =
      (t.columns.filter Column.has_primary_key).map Column.name := by
  unfold table_t.primary_key_column_names
  have hne : t.columns.filter Column.has_primary_key ≠ [] := by
    intro h0
    exact absurd hpk (by simpa using (List.filter_eq_nil_iff.mp h0) c hc)
  have hlen : ¬ ((t.columns.filter Column.has_primary_key).map
      Column.name).length = 0 := by
    simp [List.length_eq_zero, List.map_eq_nil_iff, hne]
  simp [hlen]
  intro hall
  exact absurd hpk (by simp [hall c hc])

/-! ## Claim theorems -/

/-- C1 counterexample: on a concrete table, `find_column_name` applied to
a handle bound to no column returns the empty string — a plain string
result indistinguishable from a valid empty name, not an explicit absent
result. -/
theorem find_column_name_miss_is_empty_string :
    (∀ c ∈ exC1_table.columns, accessor_matches exC1_unbound c = false) ∧
    exC1_table.find_column_name exC1_unbound = "" := by
  constructor
  · decide
  · decide

/-- C1 (amended): `find_column_name` on an accessor bound to no column of
the table returns the empty string (the documented behaviour of
`table.h`: "column name or empty string if nothing found"); the
not-found signal is the empty string, conflated with a valid empty
name. -/
theorem find_column_name_unbound_is_empty {t : table_t} {a : AccessorRef}
    (h : ∀ c ∈ t.columns, accessor_matches a c = false) :
    t.find_column_name a = "" :=
  find_column_name_of_no_match h

/-- Witness for the amended C1 at a concrete input. -/
theorem find_column_name_unbound_is_empty_witness :
    exC1_table.find_column_name exC1_unbound = "" :=
  find_column_name_unbound_is_empty (by decide)

/-- C5 counterexample: two distinct columns bound to the same field slot
of the same field type are accepted by `make_table`; the malformed table
is constructed with both columns kept, with no failure of any kind. -/
theorem make_table_accepts_duplicate_accessor :
    exC5_colA.member_pointer = exC5_colB.member_pointer ∧
    exC5_colA.field_type = exC5_colB.field_type ∧
    exC5_colA ≠ exC5_colB ∧
    exC5_table.columns = [exC5_colA, exC5_colB] ∧
    exC5_table.columns_count = 2 := by
  refine ⟨rfl, rfl, by decide, rfl, rfl⟩

/-- C5 (amended): `make_table` performs no duplicate-accessor validation;
even when two distinct columns share the same accessor identity, the
table is constructed with its full column list, its count and its name
unchanged. -/
theorem make_table_no_duplicate_detection (nm : String)
    (cols : List Column) (pks : List CompositePK) (c1 c2 : Column)
    (_h1 : c1 ∈ cols) (_h2 : c2 ∈ cols) (_hne : c1 ≠ c2)
    (_hdup : c1.member_pointer = c2.member_pointer ∧
      c1.field_type = c2.field_type) :
    (make_table nm cols pks).columns = cols ∧
    (make_table nm cols pks).columns_count = cols.length ∧
    (make_table nm cols pks).name = nm ∧
    (make_table nm cols pks).primary_keys = pks :=
  ⟨rfl, rfl, rfl, rfl⟩

/-- Witness for the amended C5 at a concrete input. -/
theorem make_table_no_duplicate_detection_witness :
    exC5_table.columns = [exC5_colA, exC5_colB] ∧
    exC5_table.columns_count = [exC5_colA, exC5_colB].length ∧
    exC5_table.name = "t5" ∧
    exC5_table.primary_keys = [] :=
  make_table_no_duplicate_detection "t5" [exC5_colA, exC5_colB] []
    exC5_colA exC5_colB (by decide) (by decide) (by decide)
    ⟨rfl, rfl⟩

/-- C6 counterexample: with two columns of the same field type bound to
the same field slot, `find_column_name` returns the name of the second
(last) matching column, not the first. -/
theorem find_column_name_not_first_match :
    accessor_matches exC6_acc exC6_colA = true ∧
    accessor_matches exC6_acc exC6_colB = true ∧
    exC6_table.columns = [exC6_colA, exC6_colB] ∧
    exC6_table.find_column_name exC6_acc = "b" ∧
    "b" ≠ "a" := by
  refine ⟨by decide, by decide, rfl, by decide, by decide⟩

/-- C6 (amended): when several columns of the matching field type match
the accessor by identity, `find_column_name` returns the name of the
LAST matching column in declaration order (the visitor overwrites its
result on every match and never exits early). -/
theorem find_column_name_returns_last_match (t : table_t)
    (a : AccessorRef) (pre post : List Column) (c : Column)
    (hcols : t.columns = pre ++ c :: post)
    (hc : accessor_matches a c = true)
    (hpost : ∀ d ∈ post, accessor_matches a d = false) :
    t.find_column_name a = c.name := by
  rw [find_column_name_closed_form, hcols]
  have h1 : post.reverse.find? (accessor_matches a) = none :=
    List.find?_eq_none.mpr fun d hd => by
      simp [hpost d (List.mem_reverse.mp hd)]
  simp [List.find?_append, List.find?, h1, hc]

/-- Witness for the amended C6 at a concrete input. -/
theorem find_column_name_returns_last_match_witness :
    exC6_table.find_column_name exC6_acc = exC6_colB.name :=
  find_column_name_returns_last_match exC6_table exC6_acc
    [exC6_colA] [] exC6_colB rfl (by decide) (by decide)

/-- C8: `without_rowid()` returns an independent table with the flag set
and the name, columns and table-level constraints of the receiver; a
second application keeps the flag true with the column set unchanged;
the receiver's own flag is untouched. -/
theorem without_rowid_pure (t : table_t)
    (h : t.without_rowid_flag = false) :
    (t.without_rowid).without_rowid_flag = true ∧
    (t.without_rowid).name = t.name ∧
    (t.without_rowid).columns = t.columns ∧
    (t.without_rowid).primary_keys = t.primary_keys ∧
    ((t.without_rowid).without_rowid).without_rowid_flag = true ∧
    ((t.without_rowid).without_rowid).columns = t.columns ∧
    ((t.without_rowid).without_rowid).name = t.name ∧
    t.without_rowid_flag = false :=
  ⟨rfl, rfl, rfl, rfl, rfl, rfl, rfl, h⟩

/-- Witness for C8 at a concrete input. -/
theorem without_rowid_pure_witness :
    (exC8_table.without_rowid).without_rowid_flag = true ∧
    (exC8_table.without_rowid).name = exC8_table.name ∧
    (exC8_table.without_rowid).columns = exC8_table.columns ∧
    (exC8_table.without_rowid).primary_keys = exC8_table.primary_keys ∧
    ((exC8_table.without_rowid).without_rowid).without_rowid_flag = true ∧
    ((exC8_table.without_rowid).without_rowid).columns
      = exC8_table.columns ∧
    ((exC8_table.without_rowid).without_rowid).name = exC8_table.name ∧
    exC8_table.without_rowid_flag = false :=
  without_rowid_pure exC8_table rfl

/-- C10: when the table declares several table-level composite primary-key
constraints and no column-level marker, `primary_key_column_names`
returns the resolved names of the LAST visited constraint only — each
visited constraint overwrites the previously computed result. -/
theorem primary_key_column_names_last_composite_wins (t : table_t)
    (h : ∀ c ∈ t.columns, c.has_primary_key = false) :
    t.primary_key_column_names =
      ((t.primary_keys.getLast?).map
        (fun pk => t.composite_key_columns_names_pk pk)).getD [] := by
  rw [primary_key_column_names_of_no_column_pk h,
    composite_key_columns_names_closed_form]

/-- Witness for C10: a concrete table with two composite primary-key
constraints resolves to the names of the second one only. -/
theorem primary_key_column_names_last_composite_wins_witness :
    exC10_table.primary_key_column_names = ["nick"] :=
  (primary_key_column_names_last_composite_wins exC10_table
    (by decide)).trans (by decide)

/-- C2: the precedence of `primary_key_column_names`: column-level
primary-key markers win (their columns' names in declaration order);
otherwise a table-level composite primary-key constraint is resolved to
its referenced columns' names in the constraint's listed order (here
`owner` names the column owning each reference, unique by the duplicate
-accessor invariant); otherwise the result is empty. -/
theorem primary_key_column_names_precedence (t : table_t)
    (owner : AccessorRef → Column) :
    ((∃ c ∈ t.columns, c.has_primary_key = true) →
      t.primary_key_column_names =
        (t.columns.filter Column.has_primary_key).map Column.name) ∧
    ((∀ c ∈ t.columns, c.has_primary_key = false) →
      ∀ pk : CompositePK, t.primary_keys = [pk] →
      (∀ r ∈ pk.columns, owner r ∈ t.columns ∧
          accessor_matches r (owner r) = true ∧
          ∀ d ∈ t.columns, accessor_matches r d = true → d = owner r) →
      t.primary_key_column_names =
        pk.columns.map fun r => (owner r).name) ∧
    ((∀ c ∈ t.columns, c.has_primary_key = false) →
      t.primary_keys = [] → t.primary_key_column_names = []) := by
  refine ⟨?_, ?_, ?_⟩
  · rintro ⟨c, hc, hpk⟩
    exact primary_key_column_names_of_column_pk hc hpk
  · intro hno pk hpks hown
    rw [primary_key_column_names_of_no_column_pk hno,
      composite_key_columns_names_closed_form, hpks]
    show t.composite_key_columns_names_pk pk = _
    unfold table_t.composite_key_columns_names_pk
    refine List.map_congr_left fun r hr => ?_
    obtain ⟨hmem, hmatch, huniq⟩ := hown r hr
    exact find_column_name_of_unique hmem hmatch huniq
  · intro hno hpks
    rw [primary_key_column_names_of_no_column_pk hno,
      composite_key_columns_names_closed_form, hpks]
    rfl

/-- Witness for C2 at a concrete input: the composite key of `exC2_table`
lists `y` then `x`, and resolution returns those names in that order. -/
theorem primary_key_column_names_precedence_witness :
    exC2_table.primary_key_column_names = ["y", "x"] :=
  (((primary_key_column_names_precedence exC2_table exC2_owner).2.1
    (by decide) exC2_pk rfl (by decide))).trans (by decide)

/-- C7: the rendered `dflt_value` of every metadata row follows the
spec's quoting rule (single quotes exactly for text-like types), and on
concrete tables a text column with default `abc` renders `'abc'` while
an integer column with default `0` renders `0`. -/
theorem default_value_quoting :
    (∀ t : table_t, (t.get_table_info).map table_info.dflt_value
        = t.columns.map spec_rendered_default) ∧
    (exC7_text_table.get_table_info).map table_info.dflt_value
      = ["'abc'"] ∧
    (exC7_int_table.get_table_info).map table_info.dflt_value = ["0"] := by
  refine ⟨fun t => ?_, by decide, by decide⟩
  unfold table_t.get_table_info
  rw [map_foldl_set_pk table_info.dflt_value (fun r v => rfl),
    List.map_map]
  exact List.map_congr_left fun c _ => rfl

/-- C4 counterexample: on a concrete two-column table, every rendered
row's `cid` is the literal `-1` written by `get_table_info`, not the
column's 1-based position `[1, 2]`. -/
theorem get_table_info_cid_not_position :
    (exC4_table.get_table_info).map table_info.cid = [-1, -1] ∧
    ([-1, -1] : List Int) ≠ [1, 2] := by
  refine ⟨by decide, by decide⟩

/-- C4 (amended): each rendered row carries `cid = -1` (a placeholder,
not the 1-based position), `name` and `not_null` taken from the column
in declaration order, and `pk = 0` for every column that neither carries
the column-level primary-key marker nor appears among the composite-key
column names. -/
theorem get_table_info_row_fields (t : table_t)
    (hnd : (t.columns.map Column.name).Nodup) :
    ((t.get_table_info).map (fun r => (r.cid, r.name, r.notnull))
        = t.columns.map fun c => ((-1 : Int), c.name, c.not_null)) ∧
    (∀ c ∈ t.columns, c.has_primary_key = false →
      c.name ∉ t.composite_key_columns_names →
      ∀ r ∈ t.get_table_info, r.name = c.name → r.pk = 0) := by
  constructor
  · unfold table_t.get_table_info
    rw [map_foldl_set_pk (fun r => (r.cid, r.name, r.notnull))
      (fun r v => rfl), List.map_map]
    exact List.map_congr_left fun c _ => rfl
  · intro c hc hcpk hnotin r hr hname
    unfold table_t.get_table_info at hr
    have hbase : r ∈ t.columns.map render_column := by
      refine mem_base_of_mem_foldl_set_pk hr fun p hp hne => ?_
      apply hnotin
      rw [← hname, hne]
      have hsnd : p.2 ∈ (t.composite_key_columns_names).enum.map Prod.snd :=
        List.mem_map.mpr ⟨p, hp, rfl⟩
      rwa [List.enum_map_snd] at hsnd
    obtain ⟨c2, hc2, hrc⟩ := List.mem_map.mp hbase
    have hcname : c2.name = c.name := by rw [← hname, ← hrc]; rfl
    have hcc : c2 = c := List.inj_on_of_nodup_map hnd hc2 hc hcname
    have hcpk2 : c2.has_primary_key = false := by rw [hcc]; exact hcpk
    rw [← hrc]
    show (render_column c2).pk = 0
    simp [render_column, hcpk2]

/-- Witness for the amended C4 at a concrete input. -/
theorem get_table_info_row_fields_witness :
    (exC4_table.get_table_info).map (fun r => (r.cid, r.name, r.notnull))
      = exC4_table.columns.map
          fun c => ((-1 : Int), c.name, c.not_null) :=
  (get_table_info_row_fields exC4_table (by decide)).1

/-- C9 counterexample: a table whose composite-key constraint references
an unbound accessor is accepted by `make_table`; the malformed reference
is first encountered during primary-key name resolution, where it yields
the empty string, and the metadata overlay then silently matches no row
(every rendered `pk` stays 0). -/
theorem malformed_composite_ref_reaches_resolution :
    (∀ c ∈ exC9_table.columns, accessor_matches exC9_bad c = false) ∧
    exC9_table.columns = [exC9_col] ∧
    exC9_table.primary_key_column_names = [""] ∧
    (exC9_table.get_table_info).map table_info.pk = [0] := by
  refine ⟨by decide, rfl, by decide, by decide⟩

/-- C9 (amended): a composite-key constraint referencing an accessor
bound to no declared column is not rejected: `make_table` constructs the
table unchanged, and the reference resolves to the empty string inside
`primary_key_column_names`. -/
theorem malformed_composite_ref_not_rejected (nm : String)
    (cols : List Column) (pkc : CompositePK) (r : AccessorRef)
    (hr : r ∈ pkc.columns)
    (hunbound : ∀ c ∈ cols, accessor_matches r c = false)
    (hnopk : ∀ c ∈ cols, c.has_primary_key = false) :
    (make_table nm cols [pkc]).columns = cols ∧
    "" ∈ (make_table nm cols [pkc]).primary_key_column_names := by
  refine ⟨rfl, ?_⟩
  have hfind : (make_table nm cols [pkc]).find_column_name r = "" :=
    find_column_name_of_no_match hunbound
  have hsingle : (make_table nm cols [pkc]).composite_key_columns_names
      = (make_table nm cols [pkc]).composite_key_columns_names_pk pkc := by
    rw [composite_key_columns_names_closed_form]
    rfl
  rw [primary_key_column_names_of_no_column_pk hnopk, hsingle]
  show "" ∈ pkc.columns.map
    fun v => (make_table nm cols [pkc]).find_column_name v
  exact List.mem_map.mpr ⟨r, hr, hfind⟩

/-- Witness for the amended C9 at a concrete input. -/
theorem malformed_composite_ref_not_rejected_witness :
    (make_table "t9" [exC9_col] [{ columns := [exC9_bad] }]).columns
      = [exC9_col] ∧
    "" ∈ (make_table "t9" [exC9_col]
      [{ columns := [exC9_bad] }]).primary_key_column_names :=
  malformed_composite_ref_not_rejected "t9" [exC9_col]
    { columns := [exC9_bad] } exC9_bad (by decide) (by decide) (by decide)

/-- C3: for a table with a table-level composite primary key listing
column `B` then column `A` (each reference owned uniquely by its column,
column names unique, no column-level markers), `primary_key_column_names`
returns `[B.name, A.name]`, and in `get_table_info` the row of `B` gets
`pk = 1` and the row of `A` gets `pk = 2` — for any declaration order of
the table's own columns. -/
theorem composite_key_order_and_pk_overlay (t : table_t) (B A : Column)
    (rB rA : AccessorRef)
    (hnd : (t.columns.map Column.name).Nodup)
    (hBA : B.name ≠ A.name)
    (hBmem : B ∈ t.columns) (hAmem : A ∈ t.columns)
    (hnopk : ∀ c ∈ t.columns, c.has_primary_key = false)
    (hpk : t.primary_keys = [{ columns := [rB, rA] }])
    (hBm : accessor_matches rB B = true)
    (hBu : ∀ d ∈ t.columns, accessor_matches rB d = true → d = B)
    (hAm : accessor_matches rA A = true)
    (hAu : ∀ d ∈ t.columns, accessor_matches rA d = true → d = A) :
    t.primary_key_column_names = [B.name, A.name] ∧
    (∃ r ∈ t.get_table_info, r.name = B.name ∧ r.pk = 1) ∧
    (∃ r ∈ t.get_table_info, r.name = A.name ∧ r.pk = 2) ∧
    (∀ r ∈ t.get_table_info, r.name = B.name → r.pk = 1) ∧
    (∀ r ∈ t.get_table_info, r.name = A.name → r.pk = 2) := by
  have hfB : t.find_column_name rB = B.name :=
    find_column_name_of_unique hBmem hBm hBu
  have hfA : t.find_column_name rA = A.name :=
    find_column_name_of_unique hAmem hAm hAu
  have hcomp : t.composite_key_columns_names = [B.name, A.name] := by
    rw [composite_key_columns_names_closed_form, hpk]
    show t.composite_key_columns_names_pk { columns := [rB, rA] }
      = [B.name, A.name]
    unfold table_t.composite_key_columns_names_pk
    simp [hfB, hfA]
  have hgti : t.get_table_info
      = set_pk_first
          (set_pk_first (t.columns.map render_column) B.name (Int.ofNat 1))
          A.name (Int.ofNat 2) := by
    unfold table_t.get_table_info
    rw [hcomp]
    rfl
  have hbase_names : (t.columns.map render_column).map table_info.name
      = t.columns.map Column.name := by
    rw [List.map_map]
    exact List.map_congr_left fun c _ => rfl
  have hnd0 : ((t.columns.map render_column).map table_info.name).Nodup := by
    rw [hbase_names]; exact hnd
  have hmid_names :
      (set_pk_first (t.columns.map render_column) B.name
        (Int.ofNat 1)).map table_info.name
      = t.columns.map Column.name := by
    rw [map_set_pk_first table_info.name (fun r v => rfl), hbase_names]
  have hnd1 : ((set_pk_first (t.columns.map render_column) B.name
      (Int.ofNat 1)).map table_info.name).Nodup := by
    rw [hmid_names]; exact hnd
  have hallB : ∀ r ∈ t.get_table_info, r.name = B.name → r.pk = 1 := by
    intro r hr hname
    rw [hgti] at hr
    have hr1 : r ∈ set_pk_first (t.columns.map render_column) B.name
        (Int.ofNat 1) :=
      mem_of_mem_set_pk_first hr (by rw [hname]; exact hBA)
    exact pk_of_mem_set_pk_first hnd0 hr1 hname
  have hallA : ∀ r ∈ t.get_table_info, r.name = A.name → r.pk = 2 := by
    intro r hr hname
    rw [hgti] at hr
    exact pk_of_mem_set_pk_first hnd1 hr hname
  have hfinal_names : (t.get_table_info).map table_info.name
      = t.columns.map Column.name := by
    rw [hgti, map_set_pk_first table_info.name (fun r v => rfl), hmid_names]
  have hexB : ∃ r ∈ t.get_table_info, r.name = B.name ∧ r.pk = 1 := by
    have hmem : B.name ∈ (t.get_table_info).map table_info.name := by
      rw [hfinal_names]
      exact List.mem_map.mpr ⟨B, hBmem, rfl⟩
    obtain ⟨r, hr, hrn⟩ := List.mem_map.mp hmem
    exact ⟨r, hr, hrn, hallB r hr hrn⟩
  have hexA : ∃ r ∈ t.get_table_info, r.name = A.name ∧ r.pk = 2 := by
    have hmem : A.name ∈ (t.get_table_info).map table_info.name := by
      rw [hfinal_names]
      exact List.mem_map.mpr ⟨A, hAmem, rfl⟩
    obtain ⟨r, hr, hrn⟩ := List.mem_map.mp hmem
    exact ⟨r, hr, hrn, hallA r hr hrn⟩
  refine ⟨?_, hexB, hexA, hallB, hallA⟩
  rw [primary_key_column_names_of_no_column_pk hnopk, hcomp]

/-- Witness for C3 at a concrete input: `exC3_table` declares its columns
as `a` then `b`, while the composite key lists `b` then `a`. -/
theorem composite_key_order_and_pk_overlay_witness :
    exC3_table.primary_key_column_names
      = [exC3_colB.name, exC3_colA.name] ∧
    (∃ r ∈ exC3_table.get_table_info,
      r.name = exC3_colB.name ∧ r.pk = 1) ∧
    (∃ r ∈ exC3_table.get_table_info,
      r.name = exC3_colA.name ∧ r.pk = 2) ∧
    (∀ r ∈ exC3_table.get_table_info,
      r.name = exC3_colB.name → r.pk = 1) ∧
    (∀ r ∈ exC3_table.get_table_info,
      r.name = exC3_colA.name → r.pk = 2) :=
  composite_key_order_and_pk_overlay exC3_table exC3_colB exC3_colA
    exC3_rB exC3_rA (by decide) (by decide) (by decide) (by decide)
    (by decide) rfl (by decide) (by decide) (by decide) (by decide)
